import Mathlib

/-!
Shallow embedding of the DIY AFM control firmware
(`DIY_AFM_control_Arduino_firmware_115200_Baud_v_4.ino`).

The firmware is a single cooperative loop: each iteration first lets the
command interpreter consume one serial command (if a byte is pending) and
then runs one step of the raster scan engine.  We model the mutable
globals as a state record, the serial input as a list of characters, the
analog detector as a stream `adc : ℕ → ℕ` indexed by the running count of
`analogRead` calls, and all externally observable actions (bus writes,
samples, serial output, delays) as an event trace.  The 8-bit output
registers `PORTL`/`PORTC` truncate assigned values modulo 256, as the
AVR hardware does.  The target is an ATmega2560, whose C `int` is 16
bits: the two computations that can leave the signed 16-bit range are
wrapped explicitly — `atoi` accumulates its result in a 16-bit `int`
(`atoi16`, wrapping with `toInt16` at each step, so a 5-digit `p`
payload such as 99999 parses to -31073), and the line advance
`startY += gap` wraps through `toInt16` as the generated AVR code does.
Every other stored quantity is clamped or capped well inside the 16-bit
range before assignment, so the remaining `ℤ` fields always hold
16-bit-representable values.
-/

namespace AFM

/-- Observable events of one firmware execution: writes to the X bus
(`PORTL`), writes to the Y bus (`PORTC`), analog samples (`analogRead`),
serial output of a single character (`Serial.print`), serial output of a
number followed by a newline (`Serial.println`), millisecond and
microsecond busy waits, and a marker for the `startY += gap` line-advance
statement. -/
inductive Ev where
  | portLw (v : ℕ)
  | portCw (v : ℕ)
  | adcEv (v : ℕ)
  | txChar (c : Char)
  | txLine (v : ℕ)
  | pauseMs (n : ℕ)
  | pauseUs (n : ℤ)
  | advY
  deriving DecidableEq

/-- The firmware's mutable global state: scan mode `direc` (0 = RUN,
2 = IDLE), the configuration integers `startX`, `startY`, `gap`,
`delay_time`, the two 8-bit output registers, the not-yet-consumed
serial input, and the number of `analogRead` calls made so far (used to
index the detector stream). -/
structure St where
  direc : ℕ
  startX : ℤ
  startY : ℤ
  gap : ℤ
  delay_time : ℤ
  portL : ℕ
  portC : ℕ
  input : List Char
  nreads : ℕ
  deriving DecidableEq

/-- State after `setup()`: IDLE mode, zero origins and gap, default dwell
time 1400, both buses zeroed. -/
def initSt (inp : List Char) : St :=
  { direc := 2, startX := 0, startY := 0, gap := 0, delay_time := 1400,
    portL := 0, portC := 0, input := inp, nreads := 0 }

/-- ASCII decimal digit test, as in the firmware's
`temp >= '0' && temp <= '9'`. -/
def isDig (c : Char) : Bool := '0' ≤ c && c ≤ '9'

/-- Payload accumulation loop of the parameter commands: read characters
until a line feed, keeping a character iff it is a decimal digit and
fewer than `cap` digits have been kept so far (`j` counts the kept
digits).  Returns the kept digits and the input remaining after the line
feed; returns `none` when the input ends before a line feed arrives,
which models the firmware blocking forever. -/
def readDigits (cap : ℕ) (j : ℕ) : List Char → Option (List Char × List Char)
  | [] => none
  | c :: rest =>
    if c = '\n' then some ([], rest)
    else if isDig c && decide (j < cap) then
      match readDigits cap (j + 1) rest with
      | none => none
      | some (ds, r) => some (c :: ds, r)
    else readDigits cap j rest

/-- Unbounded base-10 value of a digit string (the number the digits
denote mathematically; the empty buffer yields 0).  Used to state what
`atoi` computes when no 16-bit overflow occurs. -/
def atoiN (ds : List Char) : ℕ :=
  ds.foldl (fun a c => 10 * a + (c.toNat - '0'.toNat)) 0

/-- Reduction of an integer into the signed 16-bit range
[-32768, 32767], as assignment to an AVR `int` wraps. -/
def toInt16 (x : ℤ) : ℤ := (x + 32768) % 65536 - 32768

/-- Value of a digit string as the ATmega2560's `atoi` computes it on
the accumulated buffer: the digits are folded into a 16-bit signed
`int`, wrapping at every accumulation step (the empty buffer yields
0). -/
def atoi16 (ds : List Char) : ℤ :=
  ds.foldl (fun a c => toInt16 (10 * a + ((c.toNat - '0'.toNat : ℕ) : ℤ))) 0

/-- The `switch(val)` statement of `loop()`: run the case selected by the
tag byte `val` on the remaining input `rest`.  Parameter cases read their
payload (stalling as `none` when no line feed follows); `u` and `e`
consume nothing further; an unrecognized tag falls through doing
nothing. -/
def dispatch (st : St) (val : Char) (rest : List Char) : Option (St × List Ev) :=
  if val = 'p' then
    match readDigits 5 0 rest with
    | none => none
    | some (ds, r) =>
      some ({ st with delay_time := atoi16 ds, input := r }, [])
  else if val = 'x' then
    match readDigits 3 0 rest with
    | none => none
    | some (ds, r) =>
      some ({ st with
              startX := if atoi16 ds > 255 then 255 else atoi16 ds,
              input := r }, [])
  else if val = 'y' then
    match readDigits 3 0 rest with
    | none => none
    | some (ds, r) =>
      some ({ st with
              startY := if atoi16 ds > 255 then 255 else atoi16 ds,
              input := r }, [])
  else if val = 'g' then
    match readDigits 3 0 rest with
    | none => none
    | some (ds, r) =>
      some ({ st with
              gap := if atoi16 ds > 128 then 128 else atoi16 ds,
              input := r }, [])
  else if val = 'u' then
    some ({ st with direc := 0, input := rest }, [])
  else if val = 'e' then
    some ({ st with direc := 2, portL := 0, portC := 0, input := rest },
          [Ev.portLw 0, Ev.portCw 0])
  else
    some ({ st with input := rest }, [])

/-- One interpreter turn (`if (Serial.available()) { ... }`): if no input
is pending do nothing; otherwise consume one tag byte, run the matching
`switch` case, and finally emit the acknowledgement byte `'a'` iff the
mode after the `switch` is RUN.  Returns `none` when a parameter command
stalls waiting for its line feed. -/
def commandStep (st : St) : Option (St × List Ev) :=
  match st.input with
  | [] => some (st, [])
  | val :: rest =>
    match dispatch st val rest with
    | none => none
    | some (st', evs) =>
      some (st', if st'.direc = 0 then evs ++ [Ev.txChar 'a'] else evs)

/-- Events of the inner sampling loop, one triple per X index:
`PORTL = i`, `delayMicroseconds(delay_time)`, `fes[i] = analogRead(A0)`.
`r` is the `analogRead` count at loop entry. -/
def sampleEvsAux (d : ℤ) (adc : ℕ → ℕ) (r : ℕ) : List ℕ → List Ev
  | [] => []
  | i :: is =>
    Ev.portLw i :: Ev.pauseUs d :: Ev.adcEv (adc (r + i)) :: sampleEvsAux d adc r is

/-- Events of the full sampling loop `for (i = 0; i < 256; i++)`. -/
def sampleEvs (d : ℤ) (adc : ℕ → ℕ) (r : ℕ) : List Ev :=
  sampleEvsAux d adc r (List.range 256)

/-- Contents of the line buffer `fes` after the sampling loop: the 256
detector readings in X order. -/
def lineSamples (adc : ℕ → ℕ) (r : ℕ) : List ℕ :=
  (List.range 256).map (fun i => adc (r + i))

/-- Events of the transmission loop, one pair per buffered sample:
`Serial.println(fes[i])`, `delayMicroseconds(50)`. -/
def emitEvsAux : List ℕ → List Ev
  | [] => []
  | v :: vs => Ev.txLine v :: Ev.pauseUs 50 :: emitEvsAux vs

/-- Events of the full transmission loop. -/
def emitEvs (adc : ℕ → ℕ) (r : ℕ) : List Ev :=
  emitEvsAux (lineSamples adc r)

/-- Event trace of one RUN-mode scan line, in source order: `PORTC =
startY` (truncated to 8 bits), `delay(1)`, the 256 sample triples, the
`startY += gap` advance, then the 256 transmissions. -/
def scanRunEvents (st : St) (adc : ℕ → ℕ) : List Ev :=
  Ev.portCw (st.startY % 256).toNat :: Ev.pauseMs 1 ::
    (sampleEvs st.delay_time adc st.nreads ++
      Ev.advY :: emitEvs adc st.nreads)

/-- One scan-engine turn: in RUN mode one full scan line (Y-bus write,
256 samples, Y advance, 256 transmissions); in IDLE mode a single
detector sample printed to serial followed by `delay(10)`.  The line
advance `startY += gap` is an addition of 16-bit `int`s and wraps
accordingly. -/
def scanStep (st : St) (adc : ℕ → ℕ) : St × List Ev :=
  if st.direc = 0 then
    ({ st with portC := (st.startY % 256).toNat, portL := 255,
               startY := toInt16 (st.startY + st.gap), nreads := st.nreads + 256 },
     scanRunEvents st adc)
  else
    ({ st with nreads := st.nreads + 1 },
     [Ev.adcEv (adc st.nreads), Ev.txLine (adc st.nreads), Ev.pauseMs 10])

/-- One full iteration of `loop()`: interpreter turn, then scan-engine
turn on the updated state. -/
def loopStep (st : St) (adc : ℕ → ℕ) : Option (St × List Ev) :=
  match commandStep st with
  | none => none
  | some (st1, evs1) =>
    let p := scanStep st1 adc
    some (p.1, evs1 ++ p.2)

/-- Run `n` iterations of `loop()`, concatenating the event traces. -/
def run : ℕ → St → (ℕ → ℕ) → Option (St × List Ev)
  | 0, st, _ => some (st, [])
  | n + 1, st, adc =>
    match loopStep st adc with
    | none => none
    | some (st1, evs1) =>
      match run n st1 adc with
      | none => none
      | some (st2, evs2) => some (st2, evs1 ++ evs2)

/-- Projection of a trace onto the position-bus writes (both buses), in
order. -/
def busWrites (evs : List Ev) : List Ev :=
  evs.filterMap fun e =>
    match e with
    | Ev.portLw v => some (Ev.portLw v)
    | Ev.portCw v => some (Ev.portCw v)
    | _ => none

/-- Projection of a trace onto the values written to the X bus, in
order. -/
def xWrites (evs : List Ev) : List ℕ :=
  evs.filterMap fun e =>
    match e with
    | Ev.portLw v => some v
    | _ => none

/-- Projection of a trace onto the numbers emitted with
`Serial.println`, in order. -/
def txLineVals (evs : List Ev) : List ℕ :=
  evs.filterMap fun e =>
    match e with
    | Ev.txLine v => some v
    | _ => none

/-- Number of acknowledgement bytes `'a'` in a trace. -/
def ackCount (evs : List Ev) : ℕ :=
  evs.count (Ev.txChar 'a')

/-- Spec-side description of payload parsing, written from the spec's
words: the decimal-digit characters of the payload before the
terminating line feed, taken in order, truncated to the command's digit
capacity; every non-digit byte and every digit arriving after capacity
is discarded. -/
def specKeptDigits (cap : ℕ) (payload : List Char) : List Char :=
  ((payload.takeWhile (fun c => !(c == '\n'))).filter (fun c => isDig c)).take cap

/-- Command stream of the spec's end-to-end scenario:
`x10\n y20\n g5\n p1000\n u\n`. -/
def c7cmds : List Char :=
  ['x', '1', '0', '\n', 'y', '2', '0', '\n', 'g', '5', '\n',
   'p', '1', '0', '0', '0', '\n', 'u', '\n']

/-- Concrete RUN-mode state used to exhibit the order of the Y-origin
advance and the transmissions within one scan line. -/
def c1st : St :=
  { initSt [] with direc := 0, startY := 20, gap := 5, delay_time := 1000 }

/-- Concrete RUN-mode state whose line advance pushes `startY` past
255. -/
def c4st : St :=
  { initSt [] with direc := 0, startY := 255, gap := 128 }

/-- Concrete RUN-mode state at the edge of the 16-bit range (reached
from `y255`, `g128` after 254 completed lines), whose next line advance
overflows a 16-bit `int`. -/
def c4wrapSt : St :=
  { initSt [] with direc := 0, startY := 32767, gap := 128 }

/-- Concrete RUN-mode state with `startY` already past 255. -/
def c10st : St :=
  { initSt [] with direc := 0, startY := 300 }

/-- Concrete IDLE state about to process `e`, with nonzero buses and a
fully populated configuration. -/
def c6st : St :=
  { direc := 2, startX := 3, startY := 4, gap := 5, delay_time := 6,
    portL := 9, portC := 7, input := ['e'], nreads := 0 }

/-- Concrete RUN state about to process a leftover line-feed byte. -/
def c9st : St :=
  { initSt ['\n'] with direc := 0 }

/-- Concrete IDLE state about to process `u`. -/
def c5st : St :=
  initSt ['u']

end AFM

namespace AFM

theorem busWrites_append (a b : List Ev) :
    busWrites (a ++ b) = busWrites a ++ busWrites b := by
  simp [busWrites]

theorem xWrites_append (a b : List Ev) :
    xWrites (a ++ b) = xWrites a ++ xWrites b := by
  simp [xWrites]

theorem txLineVals_append (a b : List Ev) :
    txLineVals (a ++ b) = txLineVals a ++ txLineVals b := by
  simp [txLineVals]

theorem busWrites_sampleEvsAux (d : ℤ) (adc : ℕ → ℕ) (r : ℕ) (l : List ℕ) :
    busWrites (sampleEvsAux d adc r l) = l.map Ev.portLw := by
  induction l with
  | nil => rfl
  | cons i is ih => simp [sampleEvsAux, busWrites, List.filterMap_cons] at ih ⊢; exact ih

theorem xWrites_sampleEvsAux (d : ℤ) (adc : ℕ → ℕ) (r : ℕ) (l : List ℕ) :
    xWrites (sampleEvsAux d adc r l) = l := by
  induction l with
  | nil => rfl
  | cons i is ih => simp [sampleEvsAux, xWrites, List.filterMap_cons] at ih ⊢; exact ih

theorem txLineVals_sampleEvsAux (d : ℤ) (adc : ℕ → ℕ) (r : ℕ) (l : List ℕ) :
    txLineVals (sampleEvsAux d adc r l) = [] := by
  induction l with
  | nil => rfl
  | cons i is ih => simp [sampleEvsAux, txLineVals, List.filterMap_cons] at ih ⊢; exact ih

theorem busWrites_emitEvsAux (vs : List ℕ) :
    busWrites (emitEvsAux vs) = [] := by
  induction vs with
  | nil => rfl
  | cons v vs ih => simp [emitEvsAux, busWrites, List.filterMap_cons] at ih ⊢; exact ih

theorem xWrites_emitEvsAux (vs : List ℕ) :
    xWrites (emitEvsAux vs) = [] := by
  induction vs with
  | nil => rfl
  | cons v vs ih => simp [emitEvsAux, xWrites, List.filterMap_cons] at ih ⊢; exact ih

theorem txLineVals_emitEvsAux (vs : List ℕ) :
    txLineVals (emitEvsAux vs) = vs := by
  induction vs with
  | nil => rfl
  | cons v vs ih => simp [emitEvsAux, txLineVals, List.filterMap_cons] at ih ⊢; exact ih

theorem busWrites_scanRun (st : St) (adc : ℕ → ℕ) :
    busWrites (scanRunEvents st adc) =
      Ev.portCw (st.startY % 256).toNat :: (List.range 256).map Ev.portLw := by
  simp [scanRunEvents, sampleEvs, emitEvs, busWrites, List.filterMap_cons,
    List.filterMap_append, busWrites_sampleEvsAux, busWrites_emitEvsAux]
  have h1 := busWrites_sampleEvsAux st.delay_time adc st.nreads (List.range 256)
  have h2 := busWrites_emitEvsAux (lineSamples adc st.nreads)
  simp [busWrites] at h1 h2
  simp [h1, h2]
  exact h2

theorem xWrites_scanRun (st : St) (adc : ℕ → ℕ) :
    xWrites (scanRunEvents st adc) = List.range 256 := by
  have h1 := xWrites_sampleEvsAux st.delay_time adc st.nreads (List.range 256)
  have h2 := xWrites_emitEvsAux (lineSamples adc st.nreads)
  simp [xWrites] at h1 h2
  simp [scanRunEvents, sampleEvs, emitEvs, xWrites, List.filterMap_cons,
    List.filterMap_append, h1, h2]
  exact h2

theorem txLineVals_scanRun (st : St) (adc : ℕ → ℕ) :
    txLineVals (scanRunEvents st adc) = lineSamples adc st.nreads := by
  have h1 := txLineVals_sampleEvsAux st.delay_time adc st.nreads (List.range 256)
  have h2 := txLineVals_emitEvsAux (lineSamples adc st.nreads)
  simp [txLineVals] at h1 h2
  simp [scanRunEvents, sampleEvs, emitEvs, txLineVals, List.filterMap_cons,
    List.filterMap_append, h1, h2]
  exact h1

theorem toInt16_emod (x : ℤ) : toInt16 x % 65536 = x % 65536 := by
  simp only [toInt16]
  omega

theorem toInt16_congr (x y : ℤ) (h : x % 65536 = y % 65536) :
    toInt16 x = toInt16 y := by
  simp only [toInt16]
  omega

theorem toInt16_of_range (x : ℤ) (h1 : -32768 ≤ x) (h2 : x ≤ 32767) :
    toInt16 x = x := by
  simp only [toInt16]
  omega

theorem isDig_toNat (c : Char) (hc : isDig c = true) :
    48 ≤ c.toNat ∧ c.toNat ≤ 57 := by
  simp [isDig] at hc
  exact ⟨hc.1, hc.2⟩

theorem atoi16_aux (ds : List Char) :
    ∀ (a : ℤ) (b : ℕ), a = toInt16 (b : ℤ) →
      ds.foldl (fun x c => toInt16 (10 * x + ((c.toNat - '0'.toNat : ℕ) : ℤ))) a =
        toInt16 ((ds.foldl (fun x c => 10 * x + (c.toNat - '0'.toNat)) b : ℕ) : ℤ) := by
  induction ds with
  | nil => intro a b h; exact h
  | cons c cs ih =>
    intro a b h
    simp only [List.foldl_cons]
    apply ih
    have hm := toInt16_emod (b : ℤ)
    rw [← h] at hm
    apply toInt16_congr
    push_cast
    omega

theorem atoi16_eq_toInt16 (ds : List Char) : atoi16 ds = toInt16 (atoiN ds) := by
  have hkey := atoi16_aux ds 0 0 (by decide)
  simpa [atoi16, atoiN] using hkey

theorem atoi16_eq_of_lt (ds : List Char) (h : atoiN ds < 32768) :
    atoi16 ds = (atoiN ds : ℤ) := by
  rw [atoi16_eq_toInt16]
  apply toInt16_of_range <;> omega

theorem atoiN_foldl_lt (ds : List Char) :
    ∀ a : ℕ, (∀ c ∈ ds, isDig c = true) →
      ds.foldl (fun x c => 10 * x + (c.toNat - '0'.toNat)) a <
        (a + 1) * 10 ^ ds.length := by
  induction ds with
  | nil => intro a _; simp [Nat.lt_succ_self a]
  | cons c cs ih =>
    intro a h
    have hc : isDig c = true := h c (by simp)
    have hd : c.toNat - '0'.toNat ≤ 9 := by
      obtain ⟨h1, h2⟩ := isDig_toNat c hc
      have h0 : '0'.toNat = 48 := rfl
      omega
    have hrec := ih (10 * a + (c.toNat - '0'.toNat))
      (fun x hx => h x (by simp [hx]))
    calc cs.foldl (fun x c => 10 * x + (c.toNat - '0'.toNat))
          (10 * a + (c.toNat - '0'.toNat))
        < (10 * a + (c.toNat - '0'.toNat) + 1) * 10 ^ cs.length := hrec
      _ ≤ ((a + 1) * 10) * 10 ^ cs.length := by
          apply Nat.mul_le_mul_right
          omega
      _ = (a + 1) * 10 ^ (c :: cs).length := by
          simp [List.length_cons, pow_succ]
          ring

theorem atoiN_lt_pow (ds : List Char) (h : ∀ c ∈ ds, isDig c = true) :
    atoiN ds < 10 ^ ds.length := by
  simpa [atoiN] using atoiN_foldl_lt ds 0 h

/-- C4 (amended): after each completed RUN-mode scan line the Y origin
equals the 16-bit wrap of (its value at the start of the line plus the
line gap), with no re-clamping; the sum is taken exactly whenever it
stays in the signed 16-bit range, which still lets the Y origin exceed
the documented maximum 255. -/
theorem c4_y_advance_wrap16 (st : St) (adc : ℕ → ℕ) (h : st.direc = 0) :
    ((scanStep st adc).1).startY = toInt16 (st.startY + st.gap) ∧
    (-32768 ≤ st.startY + st.gap → st.startY + st.gap ≤ 32767 →
      ((scanStep st adc).1).startY = st.startY + st.gap) := by
  have hs : ((scanStep st adc).1).startY = toInt16 (st.startY + st.gap) := by
    simp [scanStep, h]
  refine ⟨hs, fun h1 h2 => ?_⟩
  rw [hs]
  exact toInt16_of_range _ h1 h2

/-- Counterexample to C4 as stated: at the reachable RUN-mode state
`c4wrapSt` (`startY = 32767`, `gap = 128`, reached from `y255`, `g128`
after 254 completed lines), the next completed line leaves
`startY = -32641`, not the exact sum 32767 + 128 = 32895. -/
theorem c4_counterexample :
    ((scanStep c4wrapSt (fun _ => 0)).1).startY = -32641 ∧
    ((scanStep c4wrapSt (fun _ => 0)).1).startY ≠
      c4wrapSt.startY + c4wrapSt.gap := by
  exact ⟨by decide, by decide⟩

/-- Witness for the amended C4 at `startY = 255`, `gap = 128`: the sum
383 is within the 16-bit range, so one completed line leaves
`startY = 383`, exceeding the documented maximum 255. -/
theorem c4_y_advance_wrap16_witness :
    c4st.direc = 0 ∧ ((scanStep c4st (fun _ => 0)).1).startY = 383 ∧
      (255 : ℤ) < 383 := by
  refine ⟨rfl, ?_, by decide⟩
  have hx := (c4_y_advance_wrap16 c4st (fun _ => 0) rfl).2 (by decide) (by decide)
  rw [hx]
  decide

/-- C8: the scan engine never reads `startX` — changing only `startX`
changes neither the event trace of a scan-engine step (in RUN or IDLE
mode) nor any other component of the resulting state. -/
theorem c8_startX_noninterference (st : St) (adc : ℕ → ℕ) (x' : ℤ) :
    (scanStep { st with startX := x' } adc).2 = (scanStep st adc).2 ∧
    (scanStep { st with startX := x' } adc).1 =
      { (scanStep st adc).1 with startX := x' } := by
  cases st with
  | mk d sx sy g dt pl pc inp nr =>
    by_cases h : d = 0 <;> simp [scanStep, scanRunEvents, h]

/-- C10: at the start of every RUN-mode scan line, the value driven onto
the Y bus is `startY` reduced modulo 256 (an 8-bit quantity), so a
`startY` beyond 255 wraps to a low value instead of saturating. -/
theorem c10_ybus_mod256 (st : St) (adc : ℕ → ℕ) (h : st.direc = 0) :
    ∃ v : ℕ, ((scanStep st adc).2).head? = some (Ev.portCw v) ∧
      (v : ℤ) = st.startY % 256 ∧ v < 256 := by
  refine ⟨(st.startY % 256).toNat, ?_, ?_, ?_⟩
  · simp [scanStep, h, scanRunEvents]
  · exact Int.toNat_of_nonneg (Int.emod_nonneg _ (by norm_num))
  · have hlt : st.startY % 256 < 256 := Int.emod_lt_of_pos _ (by norm_num)
    omega

/-- Witness for C10 at `startY = 300`: the Y bus receives 44, not a
saturated 255. -/
theorem c10_ybus_mod256_witness :
    ∃ v : ℕ, ((scanStep c10st (fun _ => 0)).2).head? = some (Ev.portCw v) ∧
      v = 44 ∧ v ≠ 255 := by
  obtain ⟨v, h1, h2, h3⟩ := c10_ybus_mod256 c10st (fun _ => 0) rfl
  have hv : (v : ℤ) = 44 := by rw [h2]; decide
  have hv' : v = 44 := by omega
  exact ⟨v, h1, hv', by omega⟩

theorem commandStep_cons (st : St) (c : Char) (rest : List Char)
    (hin : st.input = c :: rest) :
    commandStep st =
      match dispatch st c rest with
      | none => none
      | some (st', evs) =>
        some (st', if st'.direc = 0 then evs ++ [Ev.txChar 'a'] else evs) := by
  unfold commandStep
  rw [hin]

theorem dispatch_p (st : St) (rest ds r : List Char)
    (h : readDigits 5 0 rest = some (ds, r)) :
    dispatch st 'p' rest =
      some ({ st with delay_time := atoi16 ds, input := r }, []) := by
  unfold dispatch
  rw [if_pos rfl, h]

theorem dispatch_x (st : St) (rest ds r : List Char)
    (h : readDigits 3 0 rest = some (ds, r)) :
    dispatch st 'x' rest =
      some ({ st with
              startX := if atoi16 ds > 255 then 255 else atoi16 ds,
              input := r }, []) := by
  unfold dispatch
  rw [if_neg (by decide), if_pos rfl, h]

theorem dispatch_y (st : St) (rest ds r : List Char)
    (h : readDigits 3 0 rest = some (ds, r)) :
    dispatch st 'y' rest =
      some ({ st with
              startY := if atoi16 ds > 255 then 255 else atoi16 ds,
              input := r }, []) := by
  unfold dispatch
  rw [if_neg (by decide), if_neg (by decide), if_pos rfl, h]

theorem dispatch_g (st : St) (rest ds r : List Char)
    (h : readDigits 3 0 rest = some (ds, r)) :
    dispatch st 'g' rest =
      some ({ st with
              gap := if atoi16 ds > 128 then 128 else atoi16 ds,
              input := r }, []) := by
  unfold dispatch
  rw [if_neg (by decide), if_neg (by decide), if_neg (by decide), if_pos rfl, h]

theorem dispatch_u (st : St) (rest : List Char) :
    dispatch st 'u' rest = some ({ st with direc := 0, input := rest }, []) := by
  unfold dispatch
  rw [if_neg (by decide), if_neg (by decide), if_neg (by decide),
    if_neg (by decide), if_pos rfl]

theorem dispatch_e (st : St) (rest : List Char) :
    dispatch st 'e' rest =
      some ({ st with direc := 2, portL := 0, portC := 0, input := rest },
            [Ev.portLw 0, Ev.portCw 0]) := by
  unfold dispatch
  rw [if_neg (by decide), if_neg (by decide), if_neg (by decide),
    if_neg (by decide), if_neg (by decide), if_pos rfl]

theorem dispatch_other (st : St) (c : Char) (rest : List Char)
    (hp : c ≠ 'p') (hx : c ≠ 'x') (hy : c ≠ 'y') (hg : c ≠ 'g')
    (hu : c ≠ 'u') (he : c ≠ 'e') :
    dispatch st c rest = some ({ st with input := rest }, []) := by
  unfold dispatch
  rw [if_neg hp, if_neg hx, if_neg hy, if_neg hg, if_neg hu, if_neg he]

theorem ackCount_dispatch (st : St) (val : Char) (rest : List Char)
    (st' : St) (evs : List Ev) (h : dispatch st val rest = some (st', evs)) :
    ackCount evs = 0 := by
  unfold dispatch at h
  repeat' split at h
  all_goals (try simp_all [ackCount])
  all_goals (obtain ⟨h1, h2⟩ := h; subst h2; decide)

theorem ite_gt_eq_min (v c : ℤ) : (if v > c then c else v) = min v c := by
  split <;> omega

/-- C9: an unrecognized tag byte (for example the leftover line feed of
a `u` frame) is consumed, leaves the entire configuration and both
output buses unchanged, and still produces the acknowledgement byte
`'a'` when the mode is RUN. -/
theorem c9_unknown_tag (st : St) (c : Char) (rest : List Char)
    (hin : st.input = c :: rest) (hx : c ≠ 'x') (hy : c ≠ 'y') (hg : c ≠ 'g')
    (hp : c ≠ 'p') (hu : c ≠ 'u') (he : c ≠ 'e') :
    commandStep st =
      some ({ st with input := rest },
            if st.direc = 0 then [Ev.txChar 'a'] else []) := by
  rw [commandStep_cons st c rest hin, dispatch_other st c rest hp hx hy hg hu he]
  simp

/-- Witness for C9: in RUN mode, consuming the leftover `'\n'` of a `u`
frame changes nothing but still acknowledges. -/
theorem c9_unknown_tag_witness :
    commandStep c9st = some ({ c9st with input := [] }, [Ev.txChar 'a']) := by
  rw [c9_unknown_tag c9st '\n' [] rfl (by decide) (by decide) (by decide)
    (by decide) (by decide) (by decide)]
  rfl

/-- C6: the `e` command sets the mode to IDLE and synchronously writes
zero to both output buses within the same interpreter step; when the
mode is already IDLE it changes nothing in the configuration beyond
re-writing zero to both buses. -/
theorem c6_e_idle_idempotent (st : St) (rest : List Char)
    (hin : st.input = 'e' :: rest) :
    commandStep st =
      some ({ st with direc := 2, portL := 0, portC := 0, input := rest },
            [Ev.portLw 0, Ev.portCw 0]) ∧
    (st.direc = 2 →
      ({ st with direc := 2, portL := 0, portC := 0, input := rest } : St) =
        { st with portL := 0, portC := 0, input := rest }) := by
  constructor
  · rw [commandStep_cons st 'e' rest hin, dispatch_e st rest]
    simp
  · intro h2
    cases st
    simp_all

/-- Witness for C6 at a concrete IDLE state with nonzero buses: `e`
re-zeroes the buses and leaves every configuration field as it was. -/
theorem c6_e_idle_idempotent_witness :
    commandStep c6st =
      some ({ c6st with portL := 0, portC := 0, input := [] },
            [Ev.portLw 0, Ev.portCw 0]) := by
  obtain ⟨h1, h2⟩ := c6_e_idle_idempotent c6st [] rfl
  rw [h1, h2 rfl]

/-- C5: whenever the interpreter consumed a command this loop iteration,
the trace of that iteration's interpreter turn holds exactly one
acknowledgement byte `'a'` if the mode after processing is RUN, and none
if it is IDLE. -/
theorem c5_ack_once_per_iteration (st st' : St) (evs : List Ev) (c : Char)
    (rest : List Char) (hin : st.input = c :: rest)
    (h : commandStep st = some (st', evs)) :
    ackCount evs = if st'.direc = 0 then 1 else 0 := by
  rw [commandStep_cons st c rest hin] at h
  cases hd : dispatch st c rest with
  | none => rw [hd] at h; simp at h
  | some p =>
    obtain ⟨stB, base⟩ := p
    rw [hd] at h
    simp only [Option.some.injEq, Prod.mk.injEq] at h
    obtain ⟨h1, h2⟩ := h
    subst h1
    subst h2
    have hb := ackCount_dispatch st c rest stB base hd
    by_cases hdir : stB.direc = 0
    · rw [if_pos hdir, if_pos hdir]
      simp [ackCount, List.count_append] at hb ⊢
      simp [hb]
    · rw [if_neg hdir, if_neg hdir]
      exact hb

/-- Witness for C5: processing `u` from the initial IDLE state flips the
mode to RUN and the iteration's interpreter trace holds exactly one
`'a'`. -/
theorem c5_ack_once_per_iteration_witness :
    ∃ st' evs, commandStep c5st = some (st', evs) ∧ st'.direc = 0 ∧
      ackCount evs = 1 := by
  have hu' : commandStep c5st =
      some ({ c5st with direc := 0, input := [] }, [Ev.txChar 'a']) := by
    rw [commandStep_cons c5st 'u' [] rfl, dispatch_u c5st []]
    rfl
  refine ⟨_, _, hu', rfl, ?_⟩
  have hthm := c5_ack_once_per_iteration c5st _ _ 'u' [] rfl hu'
  simpa using hthm

theorem readDigits_eq_spec (cap : ℕ) (payload : List Char) :
    ∀ j : ℕ, '\n' ∈ payload →
      ∃ r, readDigits cap j payload =
        some (((payload.takeWhile (fun c => !(c == '\n'))).filter
                 (fun c => isDig c)).take (cap - j), r) := by
  induction payload with
  | nil => intro j h; simp at h
  | cons c rest ih =>
    intro j hmem
    by_cases hlf : c = '\n'
    · subst hlf
      refine ⟨rest, ?_⟩
      simp [readDigits]
    · have hmem' : '\n' ∈ rest := by
        rcases List.mem_cons.mp hmem with h | h
        · exact absurd h.symm hlf
        · exact h
      have htw : (List.takeWhile (fun c => !(c == '\n')) (c :: rest)) =
          c :: List.takeWhile (fun c => !(c == '\n')) rest := by
        simp [List.takeWhile_cons, beq_eq_false_iff_ne.mpr hlf]
      by_cases hd : isDig c = true
      · have hfl : (c :: List.takeWhile (fun c => !(c == '\n')) rest).filter
              (fun c => isDig c) =
            c :: (List.takeWhile (fun c => !(c == '\n')) rest).filter
              (fun c => isDig c) := by
          simp [List.filter_cons, hd]
        by_cases hj : j < cap
        · obtain ⟨r, hr⟩ := ih (j + 1) hmem'
          refine ⟨r, ?_⟩
          have hcond : (isDig c && decide (j < cap)) = true := by simp [hd, hj]
          simp only [readDigits]
          rw [if_neg hlf, if_pos hcond, hr, htw, hfl,
            show cap - j = (cap - (j + 1)) + 1 from by omega,
            List.take_succ_cons]
        · obtain ⟨r, hr⟩ := ih j hmem'
          refine ⟨r, ?_⟩
          have hcond : ¬ ((isDig c && decide (j < cap)) = true) := by
            simp [hj]
          simp only [readDigits]
          rw [if_neg hlf, if_neg hcond, hr, htw, hfl,
            show cap - j = 0 from by omega]
          simp
      · obtain ⟨r, hr⟩ := ih j hmem'
        refine ⟨r, ?_⟩
        have hfl : (c :: List.takeWhile (fun c => !(c == '\n')) rest).filter
              (fun c => isDig c) =
            (List.takeWhile (fun c => !(c == '\n')) rest).filter
              (fun c => isDig c) := by
          simp [List.filter_cons, hd]
        have hcond : ¬ ((isDig c && decide (j < cap)) = true) := by
          simp [hd]
        simp only [readDigits]
        rw [if_neg hlf, if_neg hcond, hr, htw, hfl]

theorem readDigits_some_lf (payload : List Char) :
    ∀ (cap j : ℕ) (p : List Char × List Char),
      readDigits cap j payload = some p → '\n' ∈ payload := by
  induction payload with
  | nil => intro cap j p h; simp [readDigits] at h
  | cons c rest ih =>
    intro cap j p h
    by_cases hlf : c = '\n'
    · subst hlf; simp
    · simp only [readDigits, if_neg hlf] at h
      by_cases hc : (isDig c && decide (j < cap)) = true
      · rw [if_pos hc] at h
        cases hrec : readDigits cap (j + 1) rest with
        | none => rw [hrec] at h; simp at h
        | some q => exact List.mem_cons_of_mem c (ih cap (j + 1) q hrec)
      · rw [if_neg hc] at h
        exact List.mem_cons_of_mem c (ih cap j p h)

theorem readDigits_bound (cap j : ℕ) (payload ds r : List Char)
    (h : readDigits cap j payload = some (ds, r)) :
    ds.length ≤ cap - j ∧ ∀ c ∈ ds, isDig c = true := by
  have hm := readDigits_some_lf payload cap j (ds, r) h
  obtain ⟨r', hr'⟩ := readDigits_eq_spec cap payload j hm
  rw [h] at hr'
  simp only [Option.some.injEq, Prod.mk.injEq] at hr'
  obtain ⟨hds, _⟩ := hr'
  subst hds
  constructor
  · simp [List.length_take]
  · intro c hc
    have hc' := List.mem_of_mem_take hc
    exact (List.mem_filter.mp hc').2

/-- C2: parameter values are clamped down to their documented ceilings
and never adjusted upward: `x` and `y` store `min(value, 255)`, `g`
stores `min(value, 128)` (their 3-digit payloads never overflow the
16-bit `atoi`), and `p` stores the parsed value directly with no
ceiling. -/
theorem c2_ceiling_clamp (st : St) (rest ds r : List Char) :
    (readDigits 3 0 rest = some (ds, r) →
      dispatch st 'x' rest =
        some ({ st with startX := min (atoiN ds : ℤ) 255, input := r }, []) ∧
      dispatch st 'y' rest =
        some ({ st with startY := min (atoiN ds : ℤ) 255, input := r }, []) ∧
      dispatch st 'g' rest =
        some ({ st with gap := min (atoiN ds : ℤ) 128, input := r }, [])) ∧
    (readDigits 5 0 rest = some (ds, r) →
      dispatch st 'p' rest =
        some ({ st with delay_time := atoi16 ds, input := r }, [])) ∧
    (atoiN ds < 32768 → atoi16 ds = (atoiN ds : ℤ)) ∧
    min (atoiN ds : ℤ) 255 ≤ (atoiN ds : ℤ) ∧
    min (atoiN ds : ℤ) 128 ≤ (atoiN ds : ℤ) := by
  refine ⟨fun h => ?_, fun h => dispatch_p st rest ds r h,
    atoi16_eq_of_lt ds, min_le_left _ _, min_le_left _ _⟩
  obtain ⟨hlen, hdig⟩ := readDigits_bound 3 0 rest ds r h
  have hlt : atoiN ds < 32768 := by
    have hp := atoiN_lt_pow ds hdig
    have hle : (10 : ℕ) ^ ds.length ≤ 10 ^ 3 :=
      Nat.pow_le_pow_right (by norm_num) (by omega)
    have h3 : (10 : ℕ) ^ 3 = 1000 := by norm_num
    omega
  have ha : atoi16 ds = (atoiN ds : ℤ) := atoi16_eq_of_lt ds hlt
  refine ⟨?_, ?_, ?_⟩
  · rw [dispatch_x st rest ds r h, ha, ite_gt_eq_min]
  · rw [dispatch_y st rest ds r h, ha, ite_gt_eq_min]
  · rw [dispatch_g st rest ds r h, ha, ite_gt_eq_min]

/-- Witness for C2: `x300\n` stores X origin 255 and `g200\n` stores
gap 128. -/
theorem c2_ceiling_clamp_witness :
    ∃ sx sg : St,
      dispatch (initSt []) 'x' ['3', '0', '0', '\n'] = some (sx, []) ∧
        sx.startX = 255 ∧
      dispatch (initSt []) 'g' ['2', '0', '0', '\n'] = some (sg, []) ∧
        sg.gap = 128 := by
  obtain ⟨h3, _, _, _, _⟩ :=
    c2_ceiling_clamp (initSt []) ['3', '0', '0', '\n'] ['3', '0', '0'] []
  obtain ⟨hx, _, _⟩ := h3 (by decide)
  obtain ⟨h3', _, _, _, _⟩ :=
    c2_ceiling_clamp (initSt []) ['2', '0', '0', '\n'] ['2', '0', '0'] []
  obtain ⟨_, _, hg⟩ := h3' (by decide)
  refine ⟨_, _, hx, ?_, hg, ?_⟩ <;> decide

/-- C3 (amended): for every line-feed-terminated payload, the
interpreter's digit accumulation keeps exactly the payload's decimal
digits in arrival order, truncated to the command's digit capacity,
discarding every other byte (an empty or fully non-digit payload parses
as zero); the stored value is the base-10 integer of those digits
accumulated into a 16-bit signed `int`, which equals that integer
exactly whenever it is below 32768 — always for the 3-digit commands,
but not for 5-digit `p` payloads from 32768 up. -/
theorem c3_payload_parsing (cap : ℕ) (payload : List Char)
    (h : '\n' ∈ payload) :
    ∃ r, readDigits cap 0 payload =
        some (specKeptDigits cap payload, r) ∧
      atoi16 (specKeptDigits cap payload) =
        toInt16 (atoiN (specKeptDigits cap payload)) ∧
      (atoiN (specKeptDigits cap payload) < 32768 →
        atoi16 (specKeptDigits cap payload) =
          (atoiN (specKeptDigits cap payload) : ℤ)) := by
  obtain ⟨r, hr⟩ := readDigits_eq_spec cap payload 0 h
  exact ⟨r, by simpa [specKeptDigits] using hr,
    atoi16_eq_toInt16 _, atoi16_eq_of_lt _⟩

/-- Counterexample to C3 as stated: the 5-digit `p` payload `99999\n`
does not parse to the base-10 integer 99999 formed by its digits — the
16-bit `atoi` wraps, and the interpreter stores -31073. -/
theorem c3_counterexample :
    dispatch (initSt []) 'p' ['9', '9', '9', '9', '9', '\n'] =
      some ({ initSt [] with delay_time := -31073, input := [] }, []) ∧
    atoiN ['9', '9', '9', '9', '9'] = 99999 ∧
    ((-31073 : ℤ) ≠ 99999) := by
  exact ⟨by decide, by decide, by decide⟩

/-- Witness for the amended C3: payload `1a2\n` at capacity 3 keeps the
digits `12`, whose value 12 is below 32768, so it is stored exactly as
the number 12. -/
theorem c3_payload_parsing_witness :
    ('\n' ∈ ['1', 'a', '2', '\n']) ∧
    (∃ r, readDigits 3 0 ['1', 'a', '2', '\n'] =
        some (specKeptDigits 3 ['1', 'a', '2', '\n'], r) ∧
      atoi16 (specKeptDigits 3 ['1', 'a', '2', '\n']) =
        toInt16 (atoiN (specKeptDigits 3 ['1', 'a', '2', '\n'])) ∧
      (atoiN (specKeptDigits 3 ['1', 'a', '2', '\n']) < 32768 →
        atoi16 (specKeptDigits 3 ['1', 'a', '2', '\n']) =
          (atoiN (specKeptDigits 3 ['1', 'a', '2', '\n']) : ℤ))) ∧
    atoi16 (specKeptDigits 3 ['1', 'a', '2', '\n']) = 12 := by
  exact ⟨by decide, c3_payload_parsing 3 _ (by decide), by decide⟩

theorem sampleEvsAux_split (d : ℤ) (adc : ℕ → ℕ) (r : ℕ) (i : ℕ) :
    ∀ l : List ℕ, i ∈ l → ∃ pre post,
      sampleEvsAux d adc r l =
        pre ++ Ev.portLw i :: Ev.pauseUs d :: Ev.adcEv (adc (r + i)) :: post := by
  intro l
  induction l with
  | nil => intro h; simp at h
  | cons a as ih =>
    intro hmem
    rcases List.mem_cons.mp hmem with h | h
    · subst h
      exact ⟨[], sampleEvsAux d adc r as, rfl⟩
    · obtain ⟨pre, post, hsp⟩ := ih h
      exact ⟨Ev.portLw a :: Ev.pauseUs d :: Ev.adcEv (adc (r + a)) :: pre, post,
        by simp [sampleEvsAux, hsp]⟩

/-- Amended C1: a RUN-mode loop iteration performs one full scan line
that writes X = 0 through 255 to the X bus in ascending order, samples
once after the configured dwell pause at each X position, advances the Y
origin, and only then emits exactly 256 samples over the serial
transport (the advance precedes the transmissions; no emission occurs
before the advance). -/
theorem c1_scan_line_amended (st : St) (adc : ℕ → ℕ) (h : st.direc = 0) :
    xWrites (scanStep st adc).2 = List.range 256 ∧
    (txLineVals (scanStep st adc).2).length = 256 ∧
    (∀ i < 256, ∃ pre post, (scanStep st adc).2 =
        pre ++ Ev.portLw i :: Ev.pauseUs st.delay_time ::
          Ev.adcEv (adc (st.nreads + i)) :: post) ∧
    (∃ pre post, (scanStep st adc).2 = pre ++ Ev.advY :: post ∧
        txLineVals pre = [] ∧ xWrites post = [] ∧
        txLineVals post = lineSamples adc st.nreads) := by
  have hev : (scanStep st adc).2 = scanRunEvents st adc := by
    simp [scanStep, h]
  refine ⟨?_, ?_, ?_, ?_⟩
  · rw [hev, xWrites_scanRun]
  · rw [hev, txLineVals_scanRun]
    simp [lineSamples]
  · intro i hi
    obtain ⟨pre, post, hsp⟩ :=
      sampleEvsAux_split st.delay_time adc st.nreads i (List.range 256)
        (List.mem_range.mpr hi)
    refine ⟨Ev.portCw (st.startY % 256).toNat :: Ev.pauseMs 1 :: pre,
      post ++ Ev.advY :: emitEvs adc st.nreads, ?_⟩
    rw [hev, scanRunEvents, sampleEvs, hsp]
    simp
  · refine ⟨Ev.portCw (st.startY % 256).toNat :: Ev.pauseMs 1 ::
      sampleEvs st.delay_time adc st.nreads, emitEvs adc st.nreads, ?_, ?_, ?_, ?_⟩
    · rw [hev, scanRunEvents]
      simp
    · have h1 := txLineVals_sampleEvsAux st.delay_time adc st.nreads (List.range 256)
      simp [txLineVals] at h1 ⊢
      simpa [sampleEvs] using h1
    · have h1 := xWrites_emitEvsAux (lineSamples adc st.nreads)
      simp [xWrites] at h1 ⊢
      simpa [emitEvs] using h1
    · have h1 := txLineVals_emitEvsAux (lineSamples adc st.nreads)
      simpa [emitEvs] using h1

set_option maxRecDepth 100000 in
/-- Counterexample to C1 as stated: in the concrete RUN-mode state
`c1st` (with a constant detector stream), the transmission found at
trace index 771 comes after the Y-origin advance at index 770, so the
scan line does not emit its 256 samples before advancing the Y
origin. -/
theorem c1_counterexample :
    ¬ (∀ i j v : ℕ,
        ((scanStep c1st (fun _ => 7)).2).get? i = some (Ev.txLine v) →
        ((scanStep c1st (fun _ => 7)).2).get? j = some Ev.advY → i < j) := by
  intro hcl
  have h1 : ((scanStep c1st (fun _ => 7)).2).get? 771 = some (Ev.txLine 7) := by
    decide
  have h2 : ((scanStep c1st (fun _ => 7)).2).get? 770 = some Ev.advY := by
    decide
  exact absurd (hcl 771 770 7 h1 h2) (by omega)

/-- Witness for the amended C1 at the concrete state `c1st`. -/
theorem c1_scan_line_amended_witness :
    c1st.direc = 0 ∧
    xWrites (scanStep c1st (fun _ => 7)).2 = List.range 256 ∧
    (txLineVals (scanStep c1st (fun _ => 7)).2).length = 256 := by
  refine ⟨rfl, ?_, ?_⟩
  · exact (c1_scan_line_amended c1st (fun _ => 7) rfl).1
  · exact (c1_scan_line_amended c1st (fun _ => 7) rfl).2.1

theorem run_zero (st : St) (adc : ℕ → ℕ) : run 0 st adc = some (st, []) := rfl

theorem run_succ (n : ℕ) (st : St) (adc : ℕ → ℕ) :
    run (n + 1) st adc =
      match loopStep st adc with
      | none => none
      | some (st1, evs1) =>
        match run n st1 adc with
        | none => none
        | some (st2, evs2) => some (st2, evs1 ++ evs2) := rfl

theorem busWrites_nil : busWrites [] = [] := rfl

theorem busWrites_adc (v : ℕ) (l : List Ev) :
    busWrites (Ev.adcEv v :: l) = busWrites l := rfl

theorem busWrites_tx (v : ℕ) (l : List Ev) :
    busWrites (Ev.txLine v :: l) = busWrites l := rfl

theorem busWrites_pms (n : ℕ) (l : List Ev) :
    busWrites (Ev.pauseMs n :: l) = busWrites l := rfl

theorem busWrites_ack (c : Char) (l : List Ev) :
    busWrites (Ev.txChar c :: l) = busWrites l := rfl

theorem txLineVals_nil : txLineVals [] = [] := rfl

theorem txLineVals_adc (v : ℕ) (l : List Ev) :
    txLineVals (Ev.adcEv v :: l) = txLineVals l := rfl

theorem txLineVals_tx (v : ℕ) (l : List Ev) :
    txLineVals (Ev.txLine v :: l) = v :: txLineVals l := rfl

theorem txLineVals_pms (n : ℕ) (l : List Ev) :
    txLineVals (Ev.pauseMs n :: l) = txLineVals l := rfl

theorem txLineVals_ack (c : Char) (l : List Ev) :
    txLineVals (Ev.txChar c :: l) = txLineVals l := rfl

/-- C7: issuing `x10\n`, `y20\n`, `g5\n`, `p1000\n`, `u\n` from the
initial state, the first scan line is taken with the Y bus holding 20
(written once, before the 256 ascending X-bus writes), its 256 emitted
samples are the detector readings at X = 0..255, and the next line's
Y-bus value is 25. -/
theorem c7_scenario (adc : ℕ → ℕ) :
    ∃ stF evs, run 6 (initSt c7cmds) adc = some (stF, evs) ∧
      busWrites evs =
        Ev.portCw 20 :: ((List.range 256).map Ev.portLw ++
          Ev.portCw 25 :: (List.range 256).map Ev.portLw) ∧
      txLineVals evs =
        adc 0 :: adc 1 :: adc 2 :: adc 3 ::
          (lineSamples adc 4 ++ lineSamples adc 260) ∧
      stF.startY = 30 := by
  have h20 : ((20 : ℤ) % 256).toNat = 20 := by decide
  have h25 : ((25 : ℤ) % 256).toNat = 25 := by decide
  have hc1 : commandStep (initSt c7cmds) =
      some ({ direc := 2, startX := 10, startY := 0, gap := 0,
              delay_time := 1400, portL := 0, portC := 0,
              input := ['y', '2', '0', '\n', 'g', '5', '\n',
                        'p', '1', '0', '0', '0', '\n', 'u', '\n'],
              nreads := 0 }, []) := by decide
  have hl1 : loopStep (initSt c7cmds) adc =
      some ({ direc := 2, startX := 10, startY := 0, gap := 0,
              delay_time := 1400, portL := 0, portC := 0,
              input := ['y', '2', '0', '\n', 'g', '5', '\n',
                        'p', '1', '0', '0', '0', '\n', 'u', '\n'],
              nreads := 1 },
            [Ev.adcEv (adc 0), Ev.txLine (adc 0), Ev.pauseMs 10]) := by
    unfold loopStep
    rw [hc1]
    simp [scanStep]
  have hc2 : commandStep
      { direc := 2, startX := 10, startY := 0, gap := 0,
        delay_time := 1400, portL := 0, portC := 0,
        input := ['y', '2', '0', '\n', 'g', '5', '\n',
                  'p', '1', '0', '0', '0', '\n', 'u', '\n'],
        nreads := 1 } =
      some ({ direc := 2, startX := 10, startY := 20, gap := 0,
              delay_time := 1400, portL := 0, portC := 0,
              input := ['g', '5', '\n', 'p', '1', '0', '0', '0', '\n', 'u', '\n'],
              nreads := 1 }, []) := by decide
  have hl2 : loopStep
      { direc := 2, startX := 10, startY := 0, gap := 0,
        delay_time := 1400, portL := 0, portC := 0,
        input := ['y', '2', '0', '\n', 'g', '5', '\n',
                  'p', '1', '0', '0', '0', '\n', 'u', '\n'],
        nreads := 1 } adc =
      some ({ direc := 2, startX := 10, startY := 20, gap := 0,
              delay_time := 1400, portL := 0, portC := 0,
              input := ['g', '5', '\n', 'p', '1', '0', '0', '0', '\n', 'u', '\n'],
              nreads := 2 },
            [Ev.adcEv (adc 1), Ev.txLine (adc 1), Ev.pauseMs 10]) := by
    unfold loopStep
    rw [hc2]
    simp [scanStep]
  have hc3 : commandStep
      { direc := 2, startX := 10, startY := 20, gap := 0,
        delay_time := 1400, portL := 0, portC := 0,
        input := ['g', '5', '\n', 'p', '1', '0', '0', '0', '\n', 'u', '\n'],
        nreads := 2 } =
      some ({ direc := 2, startX := 10, startY := 20, gap := 5,
              delay_time := 1400, portL := 0, portC := 0,
              input := ['p', '1', '0', '0', '0', '\n', 'u', '\n'],
              nreads := 2 }, []) := by decide
  have hl3 : loopStep
      { direc := 2, startX := 10, startY := 20, gap := 0,
        delay_time := 1400, portL := 0, portC := 0,
        input := ['g', '5', '\n', 'p', '1', '0', '0', '0', '\n', 'u', '\n'],
        nreads := 2 } adc =
      some ({ direc := 2, startX := 10, startY := 20, gap := 5,
              delay_time := 1400, portL := 0, portC := 0,
              input := ['p', '1', '0', '0', '0', '\n', 'u', '\n'],
              nreads := 3 },
            [Ev.adcEv (adc 2), Ev.txLine (adc 2), Ev.pauseMs 10]) := by
    unfold loopStep
    rw [hc3]
    simp [scanStep]
  have hc4 : commandStep
      { direc := 2, startX := 10, startY := 20, gap := 5,
        delay_time := 1400, portL := 0, portC := 0,
        input := ['p', '1', '0', '0', '0', '\n', 'u', '\n'],
        nreads := 3 } =
      some ({ direc := 2, startX := 10, startY := 20, gap := 5,
              delay_time := 1000, portL := 0, portC := 0,
              input := ['u', '\n'], nreads := 3 }, []) := by decide
  have hl4 : loopStep
      { direc := 2, startX := 10, startY := 20, gap := 5,
        delay_time := 1400, portL := 0, portC := 0,
        input := ['p', '1', '0', '0', '0', '\n', 'u', '\n'],
        nreads := 3 } adc =
      some ({ direc := 2, startX := 10, startY := 20, gap := 5,
              delay_time := 1000, portL := 0, portC := 0,
              input := ['u', '\n'], nreads := 4 },
            [Ev.adcEv (adc 3), Ev.txLine (adc 3), Ev.pauseMs 10]) := by
    unfold loopStep
    rw [hc4]
    simp [scanStep]
  have hc5 : commandStep
      { direc := 2, startX := 10, startY := 20, gap := 5,
        delay_time := 1000, portL := 0, portC := 0,
        input := ['u', '\n'], nreads := 4 } =
      some ({ direc := 0, startX := 10, startY := 20, gap := 5,
              delay_time := 1000, portL := 0, portC := 0,
              input := ['\n'], nreads := 4 }, [Ev.txChar 'a']) := by decide
  have hl5 : loopStep
      { direc := 2, startX := 10, startY := 20, gap := 5,
        delay_time := 1000, portL := 0, portC := 0,
        input := ['u', '\n'], nreads := 4 } adc =
      some ({ direc := 0, startX := 10, startY := 25, gap := 5,
              delay_time := 1000, portL := 255, portC := 20,
              input := ['\n'], nreads := 260 },
            Ev.txChar 'a' ::
              scanRunEvents
                { direc := 0, startX := 10, startY := 20, gap := 5,
                  delay_time := 1000, portL := 0, portC := 0,
                  input := ['\n'], nreads := 4 } adc) := by
    unfold loopStep
    rw [hc5]
    simp [scanStep, toInt16, h20]
  have hc6 : commandStep
      { direc := 0, startX := 10, startY := 25, gap := 5,
        delay_time := 1000, portL := 255, portC := 20,
        input := ['\n'], nreads := 260 } =
      some ({ direc := 0, startX := 10, startY := 25, gap := 5,
              delay_time := 1000, portL := 255, portC := 20,
              input := [], nreads := 260 }, [Ev.txChar 'a']) := by decide
  have hl6 : loopStep
      { direc := 0, startX := 10, startY := 25, gap := 5,
        delay_time := 1000, portL := 255, portC := 20,
        input := ['\n'], nreads := 260 } adc =
      some ({ direc := 0, startX := 10, startY := 30, gap := 5,
              delay_time := 1000, portL := 255, portC := 25,
              input := [], nreads := 516 },
            Ev.txChar 'a' ::
              scanRunEvents
                { direc := 0, startX := 10, startY := 25, gap := 5,
                  delay_time := 1000, portL := 255, portC := 20,
                  input := [], nreads := 260 } adc) := by
    unfold loopStep
    rw [hc6]
    simp [scanStep, toInt16, h25]
  have hrun : run 6 (initSt c7cmds) adc =
      some ({ direc := 0, startX := 10, startY := 30, gap := 5,
              delay_time := 1000, portL := 255, portC := 25,
              input := [], nreads := 516 },
        [Ev.adcEv (adc 0), Ev.txLine (adc 0), Ev.pauseMs 10] ++
          ([Ev.adcEv (adc 1), Ev.txLine (adc 1), Ev.pauseMs 10] ++
            ([Ev.adcEv (adc 2), Ev.txLine (adc 2), Ev.pauseMs 10] ++
              ([Ev.adcEv (adc 3), Ev.txLine (adc 3), Ev.pauseMs 10] ++
                ((Ev.txChar 'a' ::
                    scanRunEvents
                      { direc := 0, startX := 10, startY := 20, gap := 5,
                        delay_time := 1000, portL := 0, portC := 0,
                        input := ['\n'], nreads := 4 } adc) ++
                  ((Ev.txChar 'a' ::
                      scanRunEvents
                        { direc := 0, startX := 10, startY := 25, gap := 5,
                          delay_time := 1000, portL := 255, portC := 20,
                          input := [], nreads := 260 } adc) ++ [])))))) := by
    simp only [run_succ, run_zero, hl1, hl2, hl3, hl4, hl5, hl6]
  refine ⟨_, _, hrun, ?_, ?_, rfl⟩
  · simp only [busWrites_append, busWrites_adc, busWrites_tx, busWrites_pms,
      busWrites_ack, busWrites_nil, busWrites_scanRun, h20, h25,
      List.nil_append, List.append_nil]
    simp
  · simp only [txLineVals_append, txLineVals_adc, txLineVals_tx,
      txLineVals_pms, txLineVals_ack, txLineVals_nil, txLineVals_scanRun,
      List.nil_append, List.append_nil]
    simp

end AFM
